import Mathlib

/-!
Verification development for `pygmin/landscape/_distance_graph.py`
(`class _DistanceGraph`).

The shallow embedding below models minima by their Python object identity,
represented as natural numbers.  Distances are exact rationals (the Python
floats).  The mutable `_DistanceGraph` object becomes an explicit state
record `DGState`; Python dictionaries (`distance_map`, `new_distances`, the
edge-attribute store of the `networkx` graph `Gdist`) become association
lists whose update replaces the value at an existing key and otherwise
appends (the association lists produced by the operations never hold two
entries with the same key, so replacing every occurrence of a key is the
Python dictionary assignment).

A Python method that can raise is embedded as a function returning its
post-call state together with a success flag: Python mutations performed
before an exception survive the exception, so the error outcome carries the
mutated state.  The external collaborators are parameters: `mindist` is a
function `Nat → Nat → Option ℚ` (`none` models the distance routine
raising), and the Connectivity Graph (`self.graph`, built by
`pygmin.landscape.Graph`, a file not shipped here) is modelled from the
spec as a partition of the known minima into connected components, exposing
`are_connected` and `connected_component` exactly as described in spec §6.
-/

set_option autoImplicit false

/-- Unordered pair of minima, normalised so that the smaller identity comes
first.  `networkx.Graph` stores one attribute dictionary per undirected
edge; normalising the key gives the same one-slot-per-unordered-pair
behaviour. -/
def norm2 (a b : Nat) : Nat × Nat := if a ≤ b then (a, b) else (b, a)

/-- Association list used for every keyed store of the embedding. -/
abbrev KMap (κ : Type) := List (κ × ℚ)

/-- First value stored under key `k` (Python `dict.get`). -/
def findW {κ : Type} [DecidableEq κ] : KMap κ → κ → Option ℚ
  | [], _ => none
  | (k0, w) :: rest, k => if k = k0 then some w else findW rest k

/-- Python `dict` assignment `d[k] = w`: replace the value at an existing
key, otherwise append the new entry.  (On the well-formed states produced
by the embedded operations a key occurs at most once, so replacing every
occurrence is exactly the dictionary assignment.) -/
def setW {κ : Type} [DecidableEq κ] (l : KMap κ) (k : κ) (w : ℚ) : KMap κ :=
  match findW l k with
  | some _ => l.map (fun e => if e.1 = k then (k, w) else e)
  | none => l ++ [(k, w)]

theorem findW_append {κ : Type} [DecidableEq κ] (l₁ l₂ : KMap κ) (k : κ) :
    findW (l₁ ++ l₂) k = match findW l₁ k with
      | some w => some w
      | none => findW l₂ k := by
  induction l₁ with
  | nil => simp [findW]
  | cons e rest ih =>
    simp only [List.cons_append, findW]
    by_cases h : k = e.1 <;> simp [h, ih]

theorem findW_map_replace_ne {κ : Type} [DecidableEq κ] (l : KMap κ) (k k' : κ) (w : ℚ)
    (h : k' ≠ k) :
    findW (l.map (fun e => if e.1 = k then (k, w) else e)) k' = findW l k' := by
  induction l with
  | nil => simp
  | cons e rest ih =>
    simp only [List.map_cons]
    by_cases he : e.1 = k
    · rw [if_pos he]
      have h2 : k' ≠ e.1 := fun hh => h (hh.trans he)
      simp only [findW, if_neg h, if_neg h2, ih]
    · rw [if_neg he]
      simp only [findW, ih]

theorem findW_map_replace_eq {κ : Type} [DecidableEq κ] (l : KMap κ) (k : κ) (w : ℚ)
    (h : (findW l k).isSome) :
    findW (l.map (fun e => if e.1 = k then (k, w) else e)) k = some w := by
  induction l with
  | nil => simp [findW] at h
  | cons e rest ih =>
    simp only [List.map_cons]
    by_cases he : e.1 = k
    · rw [if_pos he]
      simp [findW]
    · rw [if_neg he]
      simp only [findW, if_neg (fun hh : k = e.1 => he hh.symm)] at h ⊢
      exact ih h

/-- The dictionary-assignment/lookup law. -/
theorem findW_setW {κ : Type} [DecidableEq κ] (l : KMap κ) (k k' : κ) (w : ℚ) :
    findW (setW l k w) k' = if k' = k then some w else findW l k' := by
  unfold setW
  cases hf : findW l k with
  | some v =>
    by_cases hk : k' = k
    · subst hk
      simp [findW_map_replace_eq l k' w (by simp [hf])]
    · simp [hk, findW_map_replace_ne l k k' w hk]
  | none =>
    by_cases hk : k' = k
    · subst hk
      rw [findW_append]
      simp [hf, findW]
    · rw [findW_append]
      cases hf' : findW l k' with
      | some v => rw [if_neg hk]
      | none => simp [findW, hk]

theorem mem_setW {κ : Type} [DecidableEq κ] {l : KMap κ} {k : κ} {w : ℚ} {x : κ × ℚ}
    (h : x ∈ setW l k w) : x = (k, w) ∨ x ∈ l := by
  unfold setW at h
  cases hf : findW l k with
  | some v =>
    rw [hf] at h
    rcases List.mem_map.mp h with ⟨y, hy, hxy⟩
    by_cases hyk : y.1 = k
    · simp only [hyk, if_pos rfl] at hxy; exact Or.inl hxy.symm
    · simp only [if_neg hyk] at hxy; exact Or.inr (hxy ▸ hy)
  | none =>
    rw [hf] at h
    rcases List.mem_append.mp h with h' | h'
    · exact Or.inr h'
    · simp at h'; exact Or.inl (by simp [h'])

theorem findW_mem {κ : Type} [DecidableEq κ] {l : KMap κ} {k : κ} {w : ℚ}
    (h : findW l k = some w) : (k, w) ∈ l := by
  induction l with
  | nil => simp [findW] at h
  | cons e rest ih =>
    by_cases hk : k = e.1
    · simp only [findW, if_pos hk] at h
      injection h with h
      obtain ⟨e1, e2⟩ := e
      simp only at hk h
      subst hk
      subst h
      exact List.mem_cons_self _ _
    · simp only [findW, if_neg hk] at h
      exact List.mem_cons_of_mem _ (ih h)

theorem findW_isSome_of_mem_keys {κ : Type} [DecidableEq κ] {l : KMap κ} {k : κ}
    (h : k ∈ l.map Prod.fst) : (findW l k).isSome := by
  induction l with
  | nil => simp at h
  | cons e rest ih =>
    simp only [List.map_cons, List.mem_cons] at h
    by_cases hk : k = e.1
    · simp [findW, hk]
    · rcases h with h' | h'
      · exact absurd h' hk
      · simpa [findW, hk] using ih h'

/-- If the entries removed by a filter never carry key `k`, lookups at `k`
are unchanged. -/
theorem findW_filter {κ : Type} [DecidableEq κ] (l : KMap κ) (p : κ × ℚ → Bool) (k : κ)
    (h : ∀ e ∈ l, e.1 = k → p e = true) :
    findW (l.filter p) k = findW l k := by
  induction l with
  | nil => simp
  | cons e rest ih =>
    by_cases hk : k = e.1
    · have hp : p e = true := h e (List.mem_cons_self e rest) hk.symm
      simp [List.filter, hp, findW, hk]
    · have ih' := ih (fun e' he' => h e' (List.mem_cons_of_mem _ he'))
      cases hp : p e <;> simp [List.filter, hp, findW, hk, ih']

/-- Keys of the two components of a normalised pair. -/
theorem norm2_eq_iff (a b c d : Nat) :
    norm2 a b = norm2 c d ↔ (a = c ∧ b = d) ∨ (a = d ∧ b = c) := by
  unfold norm2
  split <;> split <;> simp [Prod.ext_iff] <;> omega

theorem norm2_self (a : Nat) : norm2 a a = (a, a) := by simp [norm2]

/-- The weighted graph `self.Gdist` (a `networkx.Graph`): an insertion-ordered
node list and one weight per unordered edge key. -/
structure WGraph where
  nodes : List Nat
  edges : KMap (Nat × Nat)
  deriving DecidableEq, Repr

/-- Weight of the edge between `a` and `b`, if present
(`self.Gdist[a][b]["weight"]` / `has_edge`). -/
def WGraph.getWeight (g : WGraph) (a b : Nat) : Option ℚ :=
  findW g.edges (norm2 a b)

/-- `self.Gdist.has_edge(a, b)`. -/
def WGraph.hasEdge (g : WGraph) (a b : Nat) : Bool :=
  (g.getWeight a b).isSome

/-- `self.Gdist.add_node(m)`: no-op when the node is already present. -/
def WGraph.addNode (g : WGraph) (m : Nat) : WGraph :=
  if m ∈ g.nodes then g else { g with nodes := g.nodes ++ [m] }

/-- `self.Gdist.add_edge(a, b, weight=w)`.  Every call site of the source
invokes it with both endpoints already present, so the node list is
unchanged. -/
def WGraph.addEdge (g : WGraph) (a b : Nat) (w : ℚ) : WGraph :=
  { g with edges := setW g.edges (norm2 a b) w }

/-- `self.Gdist.remove_node(m)`: drops the node and every incident edge. -/
def WGraph.removeNode (g : WGraph) (m : Nat) : WGraph :=
  { nodes := g.nodes.filter (fun x => decide (x ≠ m)),
    edges := g.edges.filter (fun e => decide (e.1.1 ≠ m) && decide (e.1.2 ≠ m)) }

/-- Adjacency of `m` (the keys of `self.Gdist[m]`); a self-loop contributes
`m` itself once, as in `networkx`. -/
def WGraph.neighbors (g : WGraph) (m : Nat) : List Nat :=
  g.edges.filterMap (fun e =>
    if e.1.1 = m then some e.1.2 else if e.1.2 = m then some e.1.1 else none)

theorem WGraph.getWeight_addEdge (g : WGraph) (a b x y : Nat) (w : ℚ) :
    (g.addEdge a b w).getWeight x y =
      if norm2 x y = norm2 a b then some w else g.getWeight x y := by
  simp [WGraph.addEdge, WGraph.getWeight, findW_setW]

theorem WGraph.nodes_addEdge (g : WGraph) (a b : Nat) (w : ℚ) :
    (g.addEdge a b w).nodes = g.nodes := rfl

theorem WGraph.hasEdge_addEdge_mono (g : WGraph) {a b : Nat} (c d : Nat) (w : ℚ)
    (h : g.hasEdge a b = true) : (g.addEdge c d w).hasEdge a b = true := by
  unfold WGraph.hasEdge at h ⊢
  rw [WGraph.getWeight_addEdge]
  split <;> simp_all

/-- The Connectivity Graph (`self.graph`, a `pygmin.landscape.Graph`).
Modelled from the spec: `_graph.py` is not among the shipped sources, so
per spec §2/§6 the collaborator is a graph over the known minima exposing
`are_connected(a, b)` and `connected_component(a)`; we represent it by its
partition into connected components (a list of components, each a list of
member minima). -/
abbrev ConnGraph := List (List Nat)

/-- `self.graph.areConnected(a, b)`: both endpoints lie in one component. -/
def areConnected (cg : ConnGraph) (a b : Nat) : Bool :=
  cg.any (fun blk => decide (a ∈ blk) && decide (b ∈ blk))

/-- `nx.node_connected_component(self.graph.graph, m)`: the component of
`m`, or `none` when `m` is not a node of the Connectivity Graph (the
`networkx` call raises in that case). -/
def component (cg : ConnGraph) (m : Nat) : Option (List Nat) :=
  cg.find? (fun blk => decide (m ∈ blk))

/-- All nodes of the Connectivity Graph (`self.graph.graph.nodes()`). -/
def cgNodes (cg : ConnGraph) : List Nat := cg.flatten

/-- The mutable state of a `_DistanceGraph` object.  `database` is the set
of distance rows committed to the Entity Store; `ncalls` counts the
invocations of the external `mindist` routine (observable effect of the
embedding, used to express "never calls the distance function"). -/
structure DGState where
  Gdist : WGraph
  distance_map : KMap (Nat × Nat)
  new_distances : KMap (Nat × Nat)
  database : KMap (Nat × Nat)
  defer_database_update : Bool
  ncalls : Nat
  deriving DecidableEq, Repr

/-- `self.infinite_weight = 1e20`. -/
def infinite_weight : ℚ := mkRat (10 ^ 20) 1

/-- `_DistanceGraph.distToWeight`: `weight = dist**2`. -/
def distToWeight (dist : ℚ) : ℚ := dist * dist

/-- Threshold `1e-6` used by `removeEdge`. -/
def eps6 : ℚ := mkRat 1 (10 ^ 6)

/-- Threshold `1e-10` used by `checkGraph` for `zero_weight`. -/
def eps10 : ℚ := mkRat 1 (10 ^ 10)

/-- Threshold `10e-6` used by `checkGraph` for the shortest-path weight. -/
def eps5 : ℚ := mkRat 1 (10 ^ 5)

/-- `_DistanceGraph._getDistNoCalc` restricted to its live code path: look
the pair up in `distance_map` under both orderings; the database fallback
is behind `if False:` in the source and therefore absent. -/
def getDistNoCalc (dm : KMap (Nat × Nat)) (min1 min2 : Nat) : Option ℚ :=
  match findW dm (min1, min2) with
  | some dist => some dist
  | none => findW dm (min2, min1)

/-- `_DistanceGraph._setDist`: buffer the new distance (deferred mode) or
write it to the Entity Store at once, then record it in `distance_map`. -/
def setDist (st : DGState) (min1 min2 : Nat) (dist : ℚ) : DGState :=
  let st1 :=
    if st.defer_database_update then
      { st with new_distances := setW st.new_distances (min1, min2) dist }
    else
      { st with database := setW st.database (min1, min2) dist }
  { st1 with distance_map := setW st1.distance_map (min1, min2) dist }

/-- `_DistanceGraph.getDist`: cached lookup, otherwise invoke `mindist`
(`none` models the routine raising) and store the result. -/
def getDist (md : Nat → Nat → Option ℚ) (st : DGState) (min1 min2 : Nat) :
    DGState × Option ℚ :=
  match getDistNoCalc st.distance_map min1 min2 with
  | some dist => (st, some dist)
  | none =>
    let st1 := { st with ncalls := st.ncalls + 1 }
    match md min1 min2 with
    | none => (st1, none)
    | some dist => (setDist st1 min1 min2 dist, some dist)

/-- `_DistanceGraph.setTransitionStateConnection`: set the edge weight to 0. -/
def setTransitionStateConnection (st : DGState) (min1 min2 : Nat) : DGState :=
  { st with Gdist := st.Gdist.addEdge min1 min2 0 }

theorem getDist_Gdist (md : Nat → Nat → Option ℚ) (st : DGState) (a b : Nat) :
    ((getDist md st a b).1).Gdist = st.Gdist := by
  unfold getDist
  cases getDistNoCalc st.distance_map a b with
  | some d => rfl
  | none =>
    simp only []
    cases md a b with
    | none => rfl
    | some d =>
      simp only [setDist]
      cases hd : st.defer_database_update <;> simp [hd]

/-- Second loop of `_DistanceGraph._addMinimum`: for every node of `Gdist`
without an edge to `m` yet, compute the distance and add the weighted edge.
The error outcome (first component `false`) models `getDist` raising, with
the state mutated so far. -/
def distLoop (md : Nat → Nat → Option ℚ) (m : Nat) :
    DGState → List Nat → DGState × Bool
  | st, [] => (st, true)
  | st, m2 :: rest =>
    if st.Gdist.hasEdge m m2 then distLoop md m st rest
    else
      match getDist md st m m2 with
      | (st1, none) => (st1, false)
      | (st1, some dist) =>
        distLoop md m { st1 with Gdist := st1.Gdist.addEdge m m2 (distToWeight dist) } rest

/-- `_DistanceGraph._addMinimum`: add the node, wire zero-weight edges to
the members of `m`'s connected component that are already admitted, then
run the distance loop over all current nodes.  When `m` is not a node of
the Connectivity Graph, `nx.node_connected_component` raises (after the
node was already added). -/
def _addMinimum (md : Nat → Nat → Option ℚ) (cg : ConnGraph) (st : DGState) (m : Nat) :
    DGState × Bool :=
  let st1 := { st with Gdist := st.Gdist.addNode m }
  match component cg m with
  | none => (st1, false)
  | some cc =>
    let st2 := cc.foldl
      (fun s m2 => if m2 ∈ s.Gdist.nodes then setTransitionStateConnection s m m2 else s) st1
    distLoop md m st2 st2.Gdist.nodes

/-- `_DistanceGraph.addMinimum`: wrap `_addMinimum` in an Entity Store
transaction.  Only the store is transactional: on failure the snapshot of
`database` taken at `begin()` is restored and the exception propagates;
the in-memory fields keep whatever `_addMinimum` did to them. -/
def addMinimum (md : Nat → Nat → Option ℚ) (cg : ConnGraph) (st : DGState) (m : Nat) :
    DGState × Bool :=
  let db0 := st.database
  if m ∈ st.Gdist.nodes then (st, true)
  else
    match _addMinimum md cg st m with
    | (st1, true) => (st1, true)
    | (st1, false) => ({ st1 with database := db0 }, false)

/-- `_DistanceGraph.removeEdge`: set the edge weight to `infinite_weight`
unless the current weight is below `1e-6`; never raises (the source always
returns `True`). -/
def removeEdge (st : DGState) (min1 min2 : Nat) : DGState :=
  match st.Gdist.getWeight min1 min2 with
  | none => st
  | some w =>
    if ¬ w < eps6 then { st with Gdist := st.Gdist.addEdge min1 min2 infinite_weight }
    else st

/-- Result of `_addRelevantMinima`: final state, whether the pass completed
without raising, and one `(m, d1, d2)` entry per accepted minimum (the
values logged at the `accepting minimum` debug line, in pass order). -/
structure RelRes where
  state : DGState
  ok : Bool
  accepted : List (Nat × ℚ × ℚ)
  deriving DecidableEq, Repr

/-- Loop body of `_DistanceGraph._addRelevantMinima` over the nodes of the
Connectivity Graph: accept `m` when both cached distances exist and are at
most the start-end distance, then admit it via `addMinimum`. -/
def relLoop (md : Nat → Nat → Option ℚ) (cg : ConnGraph) (minstart minend : Nat)
    (sed : ℚ) : DGState → List Nat → RelRes
  | st, [] => ⟨st, true, []⟩
  | st, m :: rest =>
    match getDistNoCalc st.distance_map m minstart with
    | none => relLoop md cg minstart minend sed st rest
    | some d1 =>
      if d1 > sed then relLoop md cg minstart minend sed st rest
      else
        match getDistNoCalc st.distance_map m minend with
        | none => relLoop md cg minstart minend sed st rest
        | some d2 =>
          if d2 > sed then relLoop md cg minstart minend sed st rest
          else
            match addMinimum md cg st m with
            | (st1, true) =>
              let r := relLoop md cg minstart minend sed st1 rest
              ⟨r.state, r.ok, (m, d1, d2) :: r.accepted⟩
            | (st1, false) => ⟨st1, false, [(m, d1, d2)]⟩

/-- `_DistanceGraph._addRelevantMinima`: compute (or fetch) the start-end
distance via `getDist`, then filter every known minimum of the
Connectivity Graph through the cached-distance test. -/
def _addRelevantMinima (md : Nat → Nat → Option ℚ) (cg : ConnGraph) (st : DGState)
    (minstart minend : Nat) : RelRes :=
  match getDist md st minstart minend with
  | (st1, none) => ⟨st1, false, []⟩
  | (st1, some sed) => relLoop md cg minstart minend sed st1 (cgNodes cg)

/-- Loop of `_DistanceGraph.mergeMinima` over the adjacency of `min2`: the
edge data of `min2`'s neighbours is folded onto `min1`, keeping the lower
weight.  When `min1` has no edge to a neighbour the source evaluates
`self.add_edge`, an attribute that does not exist on `_DistanceGraph`, so
an `AttributeError` is raised at that point (error outcome `false`). -/
def mergeLoop (min1 min2 : Nat) : DGState → List Nat → DGState × Bool
  | st, [] => (st, true)
  | st, m :: rest =>
    if m = min1 then mergeLoop min1 min2 st rest
    else
      if st.Gdist.hasEdge min1 m then
        mergeLoop min1 min2
          { st with Gdist := (st.Gdist.addEdge min1 m (min
              ((st.Gdist.getWeight min1 m).getD 0)
              ((st.Gdist.getWeight min2 m).getD 0))) } rest
      else (st, false)

/-- `_DistanceGraph.mergeMinima`: rebuild `Gdist` around `min1` and remove
`min2`.  Accessing `self.Gdist[min2]` with `min2` absent raises, and the
node removal only happens when the loop completed. -/
def mergeMinima (st : DGState) (min1 min2 : Nat) : DGState × Bool :=
  if min2 ∈ st.Gdist.nodes then
    match mergeLoop min1 min2 st (st.Gdist.neighbors min2) with
    | (st1, true) => ({ st1 with Gdist := st1.Gdist.removeNode min2 }, true)
    | (st1, false) => (st1, false)
  else (st, false)

/-- Weighted adjacency used by the shortest-path search. -/
def nbrsW (es : KMap (Nat × Nat)) (cur : Nat) : List (Nat × ℚ) :=
  es.filterMap (fun e =>
    if e.1.1 = cur then some (e.1.2, e.2)
    else if e.1.2 = cur then some (e.1.1, e.2) else none)

/-- Pointwise minimum of optional weights. -/
def omin : Option ℚ → Option ℚ → Option ℚ
  | none, y => y
  | some p, none => some p
  | some p, some q => some (min p q)

/-- Fuel-bounded minimum total weight over simple paths. -/
def spwGo (es : KMap (Nat × Nat)) : Nat → List Nat → Nat → Nat → Option ℚ
  | 0, _, _, _ => none
  | fuel + 1, visited, cur, tgt =>
    if cur = tgt then some 0
    else
      (nbrsW es cur).foldl
        (fun acc nw =>
          if nw.1 ∈ visited then acc
          else omin acc ((spwGo es fuel (nw.1 :: visited) nw.1 tgt).map (· + nw.2)))
        none

/-- Total weight of `nx.shortest_path(self.Gdist, a, b, weight="weight")`
(the sum computed by `checkGraph`), embedded as the least total weight over
simple paths; with the non-negative weights the source stores, this is
what Dijkstra returns.  `none` models `nx.NetworkXNoPath`. -/
def shortestPathWeight (g : WGraph) (a b : Nat) : Option ℚ :=
  spwGo g.edges (g.nodes.length + 1) [a] a b

/-- Result of `checkGraph`: final state, whether the scan completed without
raising, the returned `allok` flag, and the edges reported at the two
`problem:` warning lines (emission order). -/
structure CGRes where
  state : DGState
  ok : Bool
  allok : Bool
  warnings : List (Nat × Nat)
  deriving DecidableEq, Repr

/-- Loop of `_DistanceGraph.checkGraph` over a snapshot of the edge list,
with `w0` the snapshot of edge weights taken by `nx.get_edge_attributes`
before the scan.  The two `if` statements of the source body are mutually
exclusive, rendered here as nested conditionals. -/
def cgLoop (md : Nat → Nat → Option ℚ) (cg : ConnGraph) (w0 : KMap (Nat × Nat)) :
    DGState → Bool → List (Nat × Nat) → List (Nat × Nat) → CGRes
  | st, allok, warns, [] => ⟨st, true, allok, warns⟩
  | st, allok, warns, (u, v) :: rest =>
    if areConnected cg u v then
      if (findW w0 (u, v)).getD 0 < eps10 then cgLoop md cg w0 st allok warns rest
      else
        if (shortestPathWeight st.Gdist u v).getD 0 > eps5 then
          match getDist md st u v with
          | (st1, none) => ⟨st1, false, false, warns⟩
          | (st1, some _) =>
            cgLoop md cg w0 (setTransitionStateConnection st1 u v) false
              (warns ++ [(u, v)]) rest
        else cgLoop md cg w0 (setTransitionStateConnection st u v) allok warns rest
    else
      if (findW w0 (u, v)).getD 0 < eps10 then
        match getDist md st u v with
        | (st1, none) => ⟨st1, false, false, warns⟩
        | (st1, some dist) =>
          cgLoop md cg w0 { st1 with Gdist := st1.Gdist.addEdge u v (distToWeight dist) }
            false (warns ++ [(u, v)]) rest
      else cgLoop md cg w0 st allok warns rest

/-- `_DistanceGraph.checkGraph`: scan every edge of `Gdist` against the
Connectivity Graph and repair in place; returns `allok`. -/
def checkGraph (md : Nat → Nat → Option ℚ) (cg : ConnGraph) (st : DGState) : CGRes :=
  cgLoop md cg st.Gdist.edges st true [] (st.Gdist.edges.map Prod.fst)

/-- Modelled from the spec: a `Minimum` record of the Entity Store.  The
storage layer (`pygmin/storage/database.py`) is not among the shipped
sources; spec §3 gives a Minimum an opaque identity and §9 records that the
source identifies minima "via object identity (hashable mutable objects)",
with maps keyed by the objects themselves, while each persisted row refers
to its minima through separate integer keys (`_minimum1_id`).  `tag` is the
object identity; `rid` is the integer row id the Entity Store uses. -/
structure Minimum where
  tag : Nat
  rid : Nat
  deriving DecidableEq, Repr

/-- Modelled from the spec: a key appearing in the `distance_map`
dictionary.  Entries written through `_setDist` are keyed by `Minimum`
objects, while `_initializeDistances` writes keys made of the raw integer
row ids; under object identity (spec §9) a `Minimum` object never equals
an integer, so the two kinds of key are distinct constructors. -/
inductive MKey where
  | obj (m : Minimum)
  | rowid (n : Nat)
  deriving DecidableEq, Repr

/-- `_DistanceGraph._getDistNoCalc` at the object level: look up the pair
of `Minimum` objects in both orders. -/
def getDistNoCalcK (dm : KMap (MKey × MKey)) (min1 min2 : Minimum) : Option ℚ :=
  match findW dm (MKey.obj min1, MKey.obj min2) with
  | some dist => some dist
  | none => findW dm (MKey.obj min2, MKey.obj min1)

/-- `_DistanceGraph._initializeDistances` (live `else` branch): for every
persisted distance row, store `distance_map[(d._minimum1_id, d._minimum2_id)]
= d.dist` — the keys are the integer row ids, not the `Minimum` objects. -/
def warmDistances (dm : KMap (MKey × MKey)) (rows : List ((Nat × Nat) × ℚ)) :
    KMap (MKey × MKey) :=
  rows.foldl (fun d r => setW d (MKey.rowid r.1.1, MKey.rowid r.1.2) r.2) dm

/-- Every key of a warmed-from-empty cache is a pair of row ids. -/
theorem warmDistances_keys_rowid (rows : List ((Nat × Nat) × ℚ)) :
    ∀ e ∈ warmDistances [] rows, ∃ i j, e.1 = (MKey.rowid i, MKey.rowid j) := by
  suffices h : ∀ (dm : KMap (MKey × MKey)),
      (∀ e ∈ dm, ∃ i j, e.1 = (MKey.rowid i, MKey.rowid j)) →
      ∀ e ∈ warmDistances dm rows, ∃ i j, e.1 = (MKey.rowid i, MKey.rowid j) by
    exact h [] (by simp)
  induction rows with
  | nil => intro dm hdm e he; exact hdm e he
  | cons r rest ih =>
    intro dm hdm e he
    refine ih _ ?_ e he
    intro e' he'
    rcases mem_setW he' with h' | h'
    · exact ⟨r.1.1, r.1.2, by rw [h']⟩
    · exact hdm e' h'

/-- C2: the claim is that after `_initializeDistances` warms the cache,
`_getDistNoCalc(a, b)` returns every previously persisted distance.  In the
code the warmed entries are keyed by integer row ids while the lookup uses
the `Minimum` objects, so under the spec's object-identity model the lookup
never finds a warm-loaded entry: starting from an empty cache, after
warming with any set of persisted rows every object-level lookup returns
`None` (and `getDist` would then invoke the external distance function). -/
theorem warmedCache_object_lookup_misses (rows : List ((Nat × Nat) × ℚ))
    (min1 min2 : Minimum) :
    getDistNoCalcK (warmDistances [] rows) min1 min2 = none := by
  have hkeys := warmDistances_keys_rowid rows
  have hnone : ∀ (a b : Minimum),
      findW (warmDistances [] rows) (MKey.obj a, MKey.obj b) = none := by
    intro a b
    cases hf : findW (warmDistances [] rows) (MKey.obj a, MKey.obj b) with
    | none => rfl
    | some v =>
      rcases hkeys _ (findW_mem hf) with ⟨i, j, hij⟩
      simp at hij
  unfold getDistNoCalcK
  rw [hnone min1 min2, hnone min2 min1]

/-- C8: `removeEdge` (spec `mark_unproductive`) on an existing edge leaves
a weight below the `1e-6` zero-threshold untouched (in particular a true
zero-weight connection is never overwritten) and otherwise overwrites the
weight with the `infinite_weight` sentinel `1e20`; the embedded function is
total, matching the source which always returns `True`. -/
theorem removeEdge_preserves_zero_sets_inf (st : DGState) (min1 min2 : Nat) (w : ℚ)
    (h : st.Gdist.getWeight min1 min2 = some w) :
    (w < eps6 → removeEdge st min1 min2 = st) ∧
    (¬ w < eps6 →
      (removeEdge st min1 min2).Gdist.getWeight min1 min2 = some infinite_weight) := by
  constructor
  · intro hw
    unfold removeEdge
    rw [h]
    simp [hw]
  · intro hw
    unfold removeEdge
    rw [h]
    simp only [hw, not_false_iff, if_pos]
    rw [WGraph.getWeight_addEdge]
    simp

/-- Witness for C8 at concrete inputs: an edge of weight `10` is overwritten
with the sentinel, and an edge of weight `0` is left entirely unchanged. -/
def stC8 : DGState :=
  { Gdist := { nodes := [0, 1], edges := [((0, 1), 10)] },
    distance_map := [], new_distances := [], database := [],
    defer_database_update := true, ncalls := 0 }

def stC8z : DGState :=
  { Gdist := { nodes := [0, 1], edges := [((0, 1), 0)] },
    distance_map := [], new_distances := [], database := [],
    defer_database_update := true, ncalls := 0 }

/-- Witness for C8. -/
theorem removeEdge_preserves_zero_sets_inf_witness :
    (removeEdge stC8 0 1).Gdist.getWeight 0 1 = some infinite_weight ∧
    removeEdge stC8z 0 1 = stC8z :=
  ⟨(removeEdge_preserves_zero_sets_inf stC8 0 1 10 (by decide)).2 (by decide),
   (removeEdge_preserves_zero_sets_inf stC8z 0 1 0 (by decide)).1 (by decide)⟩

theorem mergeLoop_cache (min1 min2 : Nat) :
    ∀ (l : List Nat) (st : DGState),
      (mergeLoop min1 min2 st l).1.distance_map = st.distance_map ∧
      (mergeLoop min1 min2 st l).1.new_distances = st.new_distances := by
  intro l
  induction l with
  | nil => intro st; exact ⟨rfl, rfl⟩
  | cons m rest ih =>
    intro st
    unfold mergeLoop
    by_cases hm : m = min1
    · simp only [if_pos hm]
      exact ih st
    · simp only [if_neg hm]
      cases he : st.Gdist.hasEdge min1 m
      · exact ⟨rfl, rfl⟩
      · exact ih _

/-- C4 (amended): `mergeMinima` rebuilds only the Distance Graph; the
distance cache `distance_map` and the pending buffered writes
`new_distances` are left exactly as they were, on the success path and on
the failure path alike. -/
theorem mergeMinima_cache_untouched (st : DGState) (min1 min2 : Nat) :
    (mergeMinima st min1 min2).1.distance_map = st.distance_map ∧
    (mergeMinima st min1 min2).1.new_distances = st.new_distances := by
  unfold mergeMinima
  by_cases hm : min2 ∈ st.Gdist.nodes
  · simp only [if_pos hm]
    have h := mergeLoop_cache min1 min2 (st.Gdist.neighbors min2) st
    cases hml : mergeLoop min1 min2 st (st.Gdist.neighbors min2) with
    | mk st1 ok =>
      rw [hml] at h
      cases ok
      · simpa using h
      · simpa using h
  · rw [if_neg hm]
    exact ⟨rfl, rfl⟩

def stC4 : DGState :=
  { Gdist := { nodes := [1, 2], edges := [((1, 2), 5)] },
    distance_map := [((1, 2), 5)], new_distances := [((1, 2), 5)], database := [],
    defer_database_update := true, ncalls := 0 }

/-- Counterexample to C4 as stated: minima `1` (keep) and `2` (drop) are
admitted with a cached and buffered distance for the pair; the merge
succeeds and removes node `2` from the Distance Graph, yet the cache entry
and the pending buffered write still carry key `(1, 2)`, i.e. they still
reference the dropped minimum and were not repointed to the keeper. -/
theorem mergeMinima_cache_still_mentions_drop :
    (mergeMinima stC4 1 2).2 = true ∧
    2 ∉ (mergeMinima stC4 1 2).1.Gdist.nodes ∧
    ((1, 2), (5 : ℚ)) ∈ (mergeMinima stC4 1 2).1.distance_map ∧
    ((1, 2), (5 : ℚ)) ∈ (mergeMinima stC4 1 2).1.new_distances := by
  decide

theorem ccFold_nodes (m : Nat) (cc : List Nat) :
    ∀ st : DGState,
      (cc.foldl
        (fun s m2 =>
          if m2 ∈ s.Gdist.nodes then setTransitionStateConnection s m m2 else s)
        st).Gdist.nodes = st.Gdist.nodes := by
  induction cc with
  | nil => intro st; rfl
  | cons m2 rest ih =>
    intro st
    simp only [List.foldl_cons]
    rw [ih]
    by_cases hm : m2 ∈ st.Gdist.nodes
    · simp [hm, setTransitionStateConnection, WGraph.addEdge]
    · simp [hm]

theorem distLoop_nodes (md : Nat → Nat → Option ℚ) (m : Nat) :
    ∀ (l : List Nat) (st : DGState),
      (distLoop md m st l).1.Gdist.nodes = st.Gdist.nodes := by
  intro l
  induction l with
  | nil => intro st; rfl
  | cons m2 rest ih =>
    intro st
    unfold distLoop
    cases he : st.Gdist.hasEdge m m2
    · simp only [he, Bool.false_eq_true, if_false]
      cases hg : getDist md st m m2 with
      | mk st1 od =>
        cases od
        · have hG := getDist_Gdist md st m m2
          rw [hg] at hG
          exact congrArg WGraph.nodes hG
        · rw [ih]
          have hG := getDist_Gdist md st m m2
          rw [hg] at hG
          have hG2 : st1.Gdist = st.Gdist := hG
          simp [WGraph.addEdge, hG2]
    · simp only [he, if_true]
      exact ih st

theorem _addMinimum_mem_nodes (md : Nat → Nat → Option ℚ) (cg : ConnGraph)
    (st : DGState) (m : Nat) :
    m ∈ (_addMinimum md cg st m).1.Gdist.nodes := by
  unfold _addMinimum
  have hmem : m ∈ (st.Gdist.addNode m).nodes := by
    unfold WGraph.addNode
    by_cases hm : m ∈ st.Gdist.nodes
    · simp [hm]
    · simp [hm]
  cases hc : component cg m with
  | none => exact hmem
  | some cc =>
    simp only []
    rw [distLoop_nodes, ccFold_nodes]
    exact hmem

/-- C1 (amended): when `addMinimum(m)` fails mid-admission, only the Entity
Store transaction is rolled back — the committed distance rows are exactly
those from before the call — while the in-memory Distance Graph keeps the
node `m` added before the failure (together with whatever edges and cache
entries were created up to that point). -/
theorem addMinimum_failure_db_restored (md : Nat → Nat → Option ℚ) (cg : ConnGraph)
    (st : DGState) (m : Nat) (h : (addMinimum md cg st m).2 = false) :
    (addMinimum md cg st m).1.database = st.database ∧
    m ∈ (addMinimum md cg st m).1.Gdist.nodes := by
  unfold addMinimum at h ⊢
  by_cases hm : m ∈ st.Gdist.nodes
  · simp [hm] at h
  · simp only [if_neg hm] at h ⊢
    have hmem := _addMinimum_mem_nodes md cg st m
    cases ha : _addMinimum md cg st m with
    | mk st1 ok =>
      rw [ha] at h hmem
      cases ok
      · exact ⟨rfl, hmem⟩
      · simp at h

def mdC1 : Nat → Nat → Option ℚ :=
  fun a b => if a = 2 ∧ b = 0 then some 3 else none

def cgC1 : ConnGraph := [[0], [1], [2]]

def stC1 : DGState :=
  { Gdist := { nodes := [0, 1], edges := [((0, 0), 0), ((1, 1), 0), ((0, 1), 4)] },
    distance_map := [], new_distances := [], database := [],
    defer_database_update := true, ncalls := 0 }

/-- Counterexample to C1 as stated: minima `0` and `1` are admitted and `2`
is a known minimum in its own connected component.  The distance routine
computes `d(2,0) = 3` but raises on the pair `(2,1)`, so `addMinimum(2)`
raises — yet afterwards `2` is a node of the Distance Graph, its
zero-weight self-loop `(2,2)` exists, and the cache and the deferred write
buffer hold the entry `d(2,0) = 3` created during the failed admission.
Only the Entity Store (`database`) is back to its pre-call state. -/
theorem addMinimum_failure_not_rolled_back :
    (addMinimum mdC1 cgC1 stC1 2).2 = false ∧
    2 ∈ (addMinimum mdC1 cgC1 stC1 2).1.Gdist.nodes ∧
    (addMinimum mdC1 cgC1 stC1 2).1.Gdist.getWeight 2 2 = some 0 ∧
    getDistNoCalc (addMinimum mdC1 cgC1 stC1 2).1.distance_map 2 0 = some 3 ∧
    findW (addMinimum mdC1 cgC1 stC1 2).1.new_distances (2, 0) = some 3 := by
  decide

/-- Witness for the amended C1 at the concrete failing admission. -/
theorem addMinimum_failure_db_restored_witness :
    (addMinimum mdC1 cgC1 stC1 2).1.database = stC1.database ∧
    2 ∈ (addMinimum mdC1 cgC1 stC1 2).1.Gdist.nodes :=
  addMinimum_failure_db_restored mdC1 cgC1 stC1 2 (by decide)

/-- C10: admitting a minimum `m` that is not a node of the Connectivity
Graph fails: `nx.node_connected_component` raises, the Entity Store
transaction is rolled back (the committed rows equal the pre-call rows)
and the exception propagates out of `addMinimum` — membership in the
Connectivity Graph is a precondition of a successful admission. -/
theorem addMinimum_absent_from_conn_graph_fails (md : Nat → Nat → Option ℚ)
    (cg : ConnGraph) (st : DGState) (m : Nat)
    (hcg : ∀ blk ∈ cg, m ∉ blk) (hm : m ∉ st.Gdist.nodes) :
    (addMinimum md cg st m).2 = false ∧
    (addMinimum md cg st m).1.database = st.database := by
  have hc : component cg m = none := by
    unfold component
    rw [List.find?_eq_none]
    intro blk hblk
    simp [hcg blk hblk]
  unfold addMinimum _addMinimum
  rw [if_neg hm, hc]
  exact ⟨rfl, rfl⟩

def md10 : Nat → Nat → Option ℚ := fun _ _ => none

def cg10 : ConnGraph := [[0]]

def st10 : DGState :=
  { Gdist := { nodes := [], edges := [] },
    distance_map := [], new_distances := [], database := [((0, 1), 2)],
    defer_database_update := true, ncalls := 0 }

/-- Witness for C10: minimum `5` is unknown to the Connectivity Graph, so
its admission raises and the persisted rows are unchanged. -/
theorem addMinimum_absent_from_conn_graph_fails_witness :
    (addMinimum md10 cg10 st10 5).2 = false ∧
    (addMinimum md10 cg10 st10 5).1.database = st10.database :=
  addMinimum_absent_from_conn_graph_fails md10 cg10 st10 5 (by decide) (by decide)

theorem ccFold_preserves_self_loop (m : Nat) (cc : List Nat) :
    ∀ st : DGState, st.Gdist.getWeight m m = some 0 →
      (cc.foldl
        (fun s m2 =>
          if m2 ∈ s.Gdist.nodes then setTransitionStateConnection s m m2 else s)
        st).Gdist.getWeight m m = some 0 := by
  induction cc with
  | nil => intro st h; exact h
  | cons m2 rest ih =>
    intro st h
    simp only [List.foldl_cons]
    apply ih
    by_cases hm2 : m2 ∈ st.Gdist.nodes
    · rw [if_pos hm2]
      show (st.Gdist.addEdge m m2 0).getWeight m m = some 0
      rw [WGraph.getWeight_addEdge]
      split <;> simp [h]
    · rw [if_neg hm2]
      exact h

theorem ccFold_sets_self_loop (m : Nat) (cc : List Nat) :
    ∀ st : DGState, m ∈ cc → m ∈ st.Gdist.nodes →
      (cc.foldl
        (fun s m2 =>
          if m2 ∈ s.Gdist.nodes then setTransitionStateConnection s m m2 else s)
        st).Gdist.getWeight m m = some 0 := by
  induction cc with
  | nil => intro st hmem; simp at hmem
  | cons m2 rest ih =>
    intro st hmem hnodes
    simp only [List.foldl_cons]
    by_cases hm2 : m2 = m
    · subst hm2
      rw [if_pos hnodes]
      apply ccFold_preserves_self_loop
      show (st.Gdist.addEdge m2 m2 0).getWeight m2 m2 = some 0
      rw [WGraph.getWeight_addEdge]
      simp
    · have hmem' : m ∈ rest := by
        rcases List.mem_cons.mp hmem with h' | h'
        · exact absurd h'.symm hm2
        · exact h'
      by_cases hin : m2 ∈ st.Gdist.nodes
      · rw [if_pos hin]
        apply ih _ hmem'
        simpa [setTransitionStateConnection, WGraph.addEdge] using hnodes
      · rw [if_neg hin]
        exact ih _ hmem' hnodes

theorem distLoop_preserves_self_loop (md : Nat → Nat → Option ℚ) (m : Nat) :
    ∀ (l : List Nat) (st : DGState), st.Gdist.getWeight m m = some 0 →
      (distLoop md m st l).1.Gdist.getWeight m m = some 0 := by
  intro l
  induction l with
  | nil => intro st h; exact h
  | cons m2 rest ih =>
    intro st h
    unfold distLoop
    cases he : st.Gdist.hasEdge m m2
    · have hm2 : m2 ≠ m := by
        intro heq
        subst heq
        rw [WGraph.hasEdge, h] at he
        simp at he
      cases hg : getDist md st m m2 with
      | mk st1 od =>
        have hG : st1.Gdist = st.Gdist := by
          have := getDist_Gdist md st m m2
          rw [hg] at this
          exact this
        cases od
        · simp only [Bool.false_eq_true, if_false]
          show st1.Gdist.getWeight m m = some 0
          rw [hG]
          exact h
        · simp only [Bool.false_eq_true, if_false]
          apply ih
          show (st1.Gdist.addEdge m m2 _).getWeight m m = some 0
          rw [WGraph.getWeight_addEdge]
          have hne : norm2 m m ≠ norm2 m m2 := by
            intro hc
            rcases (norm2_eq_iff m m m m2).mp hc with ⟨_, h2⟩ | ⟨h2, _⟩ <;>
              exact hm2 h2.symm
          rw [if_neg hne, hG]
          exact h
    · simp only [if_true]
      exact ih st h

theorem mem_neighbors_self (g : WGraph) (m : Nat) (w : ℚ)
    (h : g.getWeight m m = some w) : m ∈ g.neighbors m := by
  unfold WGraph.getWeight at h
  rw [norm2_self] at h
  have hmem := findW_mem h
  unfold WGraph.neighbors
  exact List.mem_filterMap.mpr ⟨((m, m), w), hmem, by simp⟩

theorem _addMinimum_self_loop (md : Nat → Nat → Option ℚ) (cg : ConnGraph)
    (st : DGState) (m : Nat) (h : (_addMinimum md cg st m).2 = true) :
    (_addMinimum md cg st m).1.Gdist.getWeight m m = some 0 := by
  unfold _addMinimum at h ⊢
  cases hc : component cg m with
  | none =>
    rw [hc] at h
    exact absurd h Bool.false_ne_true
  | some cc =>
    exact distLoop_preserves_self_loop md m _ _
      (ccFold_sets_self_loop m cc _ (by simpa using List.find?_some hc)
        (by unfold WGraph.addNode; by_cases hmm : m ∈ st.Gdist.nodes <;> simp [hmm]))

/-- C9: a successful fresh admission of a minimum `m` leaves a zero-weight
self-loop `(m, m)` in the Distance Graph — `m` belongs to its own
connected component, so the component loop calls
`setTransitionStateConnection(m, m)` — and the self-loop makes `m` a member
of its own adjacency (so a later merge dropping `m` iterates over it). -/
theorem addMinimum_creates_self_loop (md : Nat → Nat → Option ℚ) (cg : ConnGraph)
    (st : DGState) (m : Nat) (hm : m ∉ st.Gdist.nodes)
    (hok : (addMinimum md cg st m).2 = true) :
    (addMinimum md cg st m).1.Gdist.getWeight m m = some 0 ∧
    m ∈ (addMinimum md cg st m).1.Gdist.neighbors m := by
  unfold addMinimum at hok ⊢
  rw [if_neg hm] at hok ⊢
  cases ha : _addMinimum md cg st m with
  | mk st1 ok =>
    rw [ha] at hok
    cases ok
    · exact absurd hok Bool.false_ne_true
    · have hw : st1.Gdist.getWeight m m = some 0 := by
        have h2 := _addMinimum_self_loop md cg st m (by rw [ha])
        rw [ha] at h2
        exact h2
      exact ⟨hw, mem_neighbors_self st1.Gdist m 0 hw⟩

def md9 : Nat → Nat → Option ℚ := fun _ _ => none

def cg9 : ConnGraph := [[5]]

def st9 : DGState :=
  { Gdist := { nodes := [], edges := [] },
    distance_map := [], new_distances := [], database := [],
    defer_database_update := true, ncalls := 0 }

/-- Witness for C9: admitting the sole minimum `5` succeeds and creates the
zero-weight self-loop. -/
theorem addMinimum_creates_self_loop_witness :
    (addMinimum md9 cg9 st9 5).1.Gdist.getWeight 5 5 = some 0 ∧
    5 ∈ (addMinimum md9 cg9 st9 5).1.Gdist.neighbors 5 :=
  addMinimum_creates_self_loop md9 cg9 st9 5 (by decide) (by decide)

theorem relLoop_bounds (md : Nat → Nat → Option ℚ) (cg : ConnGraph)
    (minstart minend : Nat) (sed : ℚ) :
    ∀ (l : List Nat) (st : DGState),
      ∀ t ∈ (relLoop md cg minstart minend sed st l).accepted,
        t.2.1 ≤ sed ∧ t.2.2 ≤ sed := by
  intro l
  induction l with
  | nil =>
    intro st t ht
    simp [relLoop] at ht
  | cons m rest ih =>
    intro st t ht
    unfold relLoop at ht
    split at ht
    · exact ih st t ht
    · rename_i d1 h1
      split at ht
      · exact ih st t ht
      · rename_i hd1
        split at ht
        · exact ih st t ht
        · rename_i d2 h2
          split at ht
          · exact ih st t ht
          · rename_i hd2
            split at ht
            · rename_i st1 hadd
              simp only [List.mem_cons] at ht
              rcases ht with rfl | ht2
              · exact ⟨le_of_not_lt hd1, le_of_not_lt hd2⟩
              · exact ih st1 t ht2
            · rename_i st1 hadd
              rcases List.mem_singleton.mp ht with rfl
              exact ⟨le_of_not_lt hd1, le_of_not_lt hd2⟩

/-- C6 (amended): every minimum that the relevance-pruning pass accepts
passes the pure cached-distance filter — its recorded distances `d1` to the
start and `d2` to the end come from `_getDistNoCalc` lookups and satisfy
`d1 ≤ d(s,e)` and `d2 ≤ d(s,e)` — although the pass as a whole is not free
of distance computations (see the counterexample). -/
theorem addRelevantMinima_filter_bounds (md : Nat → Nat → Option ℚ) (cg : ConnGraph)
    (st : DGState) (minstart minend : Nat) (sed : ℚ)
    (h : (getDist md st minstart minend).2 = some sed) :
    ∀ t ∈ (_addRelevantMinima md cg st minstart minend).accepted,
      t.2.1 ≤ sed ∧ t.2.2 ≤ sed := by
  unfold _addRelevantMinima
  cases hg : getDist md st minstart minend with
  | mk st1 od =>
    rw [hg] at h
    cases od with
    | none => simp at h
    | some v =>
      have hv : v = sed := by
        injection h
      subst hv
      exact relLoop_bounds md cg minstart minend v (cgNodes cg) st1

def md6w : Nat → Nat → Option ℚ := fun _ _ => none

def cg6w : ConnGraph := [[0], [1], [2]]

def st6w : DGState :=
  { Gdist := { nodes := [], edges := [] },
    distance_map := [((0, 1), 10), ((2, 0), 3), ((2, 1), 4)],
    new_distances := [], database := [],
    defer_database_update := true, ncalls := 0 }

/-- Witness for the amended C6: with `d(0,1) = 10`, `d(2,0) = 3` and
`d(2,1) = 4` cached, the pass accepts minimum `2` and both recorded
distances are bounded by the start-end distance. -/
theorem addRelevantMinima_filter_bounds_witness :
    ((2 : Nat), (3 : ℚ), (4 : ℚ)) ∈ (_addRelevantMinima md6w cg6w st6w 0 1).accepted ∧
    (3 : ℚ) ≤ 10 ∧ (4 : ℚ) ≤ 10 :=
  ⟨by decide,
   addRelevantMinima_filter_bounds md6w cg6w st6w 0 1 10 (by decide)
     ((2 : Nat), (3 : ℚ), (4 : ℚ)) (by decide)⟩

def md6x : Nat → Nat → Option ℚ := fun _ _ => some 1

def cg6x : ConnGraph := [[0], [1]]

def st6x : DGState :=
  { Gdist := { nodes := [], edges := [] },
    distance_map := [], new_distances := [], database := [],
    defer_database_update := true, ncalls := 0 }

/-- Counterexample to C6 as stated: the claim says the pruning pass never
invokes the external distance function, but `_addRelevantMinima` begins
with `getDist(minstart, minend)`, which invokes `mindist` whenever the
start-end distance is not cached — here the call count rises from 0 to 1
during the pass (and admissions of accepted minima may trigger further
calls). -/
theorem addRelevantMinima_calls_mindist :
    (_addRelevantMinima md6x cg6x st6x 0 1).state.ncalls = 1 ∧ st6x.ncalls = 0 := by
  decide

theorem cgLoop_allok_iff (md : Nat → Nat → Option ℚ) (cg : ConnGraph)
    (w0 : KMap (Nat × Nat)) :
    ∀ (l : List (Nat × Nat)) (st : DGState) (allok : Bool) (warns : List (Nat × Nat)),
      (allok = true ↔ warns = []) →
      (cgLoop md cg w0 st allok warns l).ok = true →
      ((cgLoop md cg w0 st allok warns l).allok = true ↔
        (cgLoop md cg w0 st allok warns l).warnings = []) := by
  intro l
  induction l with
  | nil =>
    intro st allok warns hinv hok
    simpa [cgLoop] using hinv
  | cons uv rest ih =>
    obtain ⟨u, v⟩ := uv
    intro st allok warns hinv hok
    unfold cgLoop at hok ⊢
    by_cases hconn : areConnected cg u v
    · rw [if_pos hconn] at hok ⊢
      by_cases hzw : (findW w0 (u, v)).getD 0 < eps10
      · rw [if_pos hzw] at hok ⊢
        exact ih st allok warns hinv hok
      · rw [if_neg hzw] at hok ⊢
        by_cases hsp : (shortestPathWeight st.Gdist u v).getD 0 > eps5
        · rw [if_pos hsp] at hok ⊢
          cases hg : getDist md st u v with
          | mk st1 od =>
            rw [hg] at hok
            cases od
            · exact absurd hok Bool.false_ne_true
            · exact ih _ false (warns ++ [(u, v)]) (by simp) hok
        · rw [if_neg hsp] at hok ⊢
          exact ih _ allok warns hinv hok
    · rw [if_neg hconn] at hok ⊢
      by_cases hzw : (findW w0 (u, v)).getD 0 < eps10
      · rw [if_pos hzw] at hok ⊢
        cases hg : getDist md st u v with
        | mk st1 od =>
          rw [hg] at hok
          cases od
          · exact absurd hok Bool.false_ne_true
          · exact ih _ false (warns ++ [(u, v)]) (by simp) hok
      · rw [if_neg hzw] at hok ⊢
        exact ih st allok warns hinv hok

/-- C7 (amended): the boolean returned by `checkGraph` is `allok` — when
the scan completes without raising, the result is `True` iff no genuine
inconsistency was detected, i.e. iff no `problem:` warning was emitted
during the scan (the claim's polarity is inverted: a detected
inconsistency makes the result `False`). -/
theorem checkGraph_allok_iff_no_warnings (md : Nat → Nat → Option ℚ) (cg : ConnGraph)
    (st : DGState) (hok : (checkGraph md cg st).ok = true) :
    ((checkGraph md cg st).allok = true ↔ (checkGraph md cg st).warnings = []) :=
  cgLoop_allok_iff md cg st.Gdist.edges (st.Gdist.edges.map Prod.fst) st true []
    (by simp) hok

def md7x : Nat → Nat → Option ℚ := fun _ _ => some 1

def cg7x : ConnGraph := [[0], [1]]

def st7x : DGState :=
  { Gdist := { nodes := [0, 1], edges := [((0, 1), 0)] },
    distance_map := [], new_distances := [], database := [],
    defer_database_update := true, ncalls := 0 }

/-- Counterexample to C7 as stated: the edge `(0,1)` has weight `0` while
its endpoints are not connected in the Connectivity Graph — a genuine
inconsistency, duly detected and repaired during the scan (one `problem:`
warning is emitted) — yet `checkGraph` returns `False`, not `True`: the
claim has the boolean inverted. -/
theorem checkGraph_returns_false_on_inconsistency :
    (checkGraph md7x cg7x st7x).ok = true ∧
    (checkGraph md7x cg7x st7x).warnings = [(0, 1)] ∧
    (checkGraph md7x cg7x st7x).allok = false := by
  decide

def md7w : Nat → Nat → Option ℚ := fun _ _ => none

def cg7w : ConnGraph := [[0, 1]]

def st7w : DGState :=
  { Gdist := { nodes := [0, 1], edges := [((0, 1), 0)] },
    distance_map := [], new_distances := [], database := [],
    defer_database_update := true, ncalls := 0 }

/-- Witness for the amended C7 on a consistent graph. -/
theorem checkGraph_allok_iff_no_warnings_witness :
    (checkGraph md7w cg7w st7w).allok = true ↔
      (checkGraph md7w cg7w st7w).warnings = [] :=
  checkGraph_allok_iff_no_warnings md7w cg7w st7w (by decide)

theorem norm2_right_cancel (a b c : Nat) (h : norm2 a b = norm2 a c) : b = c := by
  rcases (norm2_eq_iff a b a c).mp h with ⟨_, h2⟩ | ⟨h1, h2⟩
  · exact h2
  · exact h2.trans h1

theorem WGraph.getWeight_removeNode (g : WGraph) (n a b : Nat)
    (ha : a ≠ n) (hb : b ≠ n) :
    (g.removeNode n).getWeight a b = g.getWeight a b := by
  unfold WGraph.removeNode WGraph.getWeight
  apply findW_filter
  intro e _ hek
  rw [hek]
  unfold norm2
  split <;> simp [ha, hb]

theorem WGraph.not_mem_removeNode (g : WGraph) (n : Nat) :
    n ∉ (g.removeNode n).nodes := by
  unfold WGraph.removeNode
  simp [List.mem_filter]

theorem mem_neighbors_of_getWeight (g : WGraph) (m x : Nat) (w : ℚ)
    (h : g.getWeight m x = some w) : x ∈ g.neighbors m := by
  unfold WGraph.getWeight at h
  have hmem := findW_mem h
  unfold WGraph.neighbors
  apply List.mem_filterMap.mpr
  refine ⟨(norm2 m x, w), hmem, ?_⟩
  unfold norm2
  split
  · simp
  · by_cases hxm : x = m
    · simp [hxm]
    · simp [hxm]

theorem mergeLoop_ok (min1 min2 : Nat) :
    ∀ (l : List Nat) (st : DGState),
      (∀ m ∈ l, m ≠ min1 → st.Gdist.hasEdge min1 m = true) →
      (mergeLoop min1 min2 st l).2 = true := by
  intro l
  induction l with
  | nil => intro st _; rfl
  | cons m rest ih =>
    intro st hcomp
    unfold mergeLoop
    by_cases hm : m = min1
    · rw [if_pos hm]
      exact ih st (fun m' hm' => hcomp m' (List.mem_cons_of_mem _ hm'))
    · rw [if_neg hm]
      have he : st.Gdist.hasEdge min1 m = true :=
        hcomp m (List.mem_cons_self _ _) hm
      rw [he, if_pos rfl]
      apply ih
      intro m' hm' hne
      exact WGraph.hasEdge_addEdge_mono _ _ _ _
        (hcomp m' (List.mem_cons_of_mem _ hm') hne)

theorem mergeLoop_frame (min1 min2 x : Nat) :
    ∀ (l : List Nat) (st : DGState), x ∉ l →
      (mergeLoop min1 min2 st l).1.Gdist.getWeight min1 x =
        st.Gdist.getWeight min1 x := by
  intro l
  induction l with
  | nil => intro st _; rfl
  | cons m rest ih =>
    intro st hx
    have hxm : x ≠ m := fun h => hx (h ▸ List.mem_cons_self m rest)
    have hxrest : x ∉ rest := fun h => hx (List.mem_cons_of_mem _ h)
    unfold mergeLoop
    by_cases hm : m = min1
    · rw [if_pos hm]
      exact ih st hxrest
    · rw [if_neg hm]
      cases he : st.Gdist.hasEdge min1 m
      · rfl
      · rw [if_pos rfl, ih _ hxrest]
        show (st.Gdist.addEdge min1 m _).getWeight min1 x = st.Gdist.getWeight min1 x
        rw [WGraph.getWeight_addEdge]
        rw [if_neg (fun hc => hxm (norm2_right_cancel min1 x m hc))]

theorem mergeLoop_sets_min (min1 min2 x : Nat) (hx1 : x ≠ min1) (h12 : min1 ≠ min2) :
    ∀ (l : List Nat) (st : DGState), x ∈ l → l.Nodup →
      (∀ m ∈ l, m ≠ min1 → st.Gdist.hasEdge min1 m = true) →
      (mergeLoop min1 min2 st l).1.Gdist.getWeight min1 x =
        some (min ((st.Gdist.getWeight min1 x).getD 0)
                  ((st.Gdist.getWeight min2 x).getD 0)) := by
  intro l
  induction l with
  | nil => intro st hx; exact absurd hx (List.not_mem_nil x)
  | cons m rest ih =>
    intro st hx hnd hcomp
    unfold mergeLoop
    by_cases hm : m = min1
    · rw [if_pos hm]
      have hx' : x ∈ rest := by
        rcases List.mem_cons.mp hx with h | h
        · exact absurd (h.trans hm) hx1
        · exact h
      exact ih st hx' (List.Nodup.of_cons hnd)
        (fun m' hm' => hcomp m' (List.mem_cons_of_mem _ hm'))
    · rw [if_neg hm]
      have he : st.Gdist.hasEdge min1 m = true :=
        hcomp m (List.mem_cons_self _ _) hm
      rw [he, if_pos rfl]
      by_cases hxm : m = x
      · subst hxm
        have hxrest : m ∉ rest := (List.nodup_cons.mp hnd).1
        rw [mergeLoop_frame min1 min2 m rest _ hxrest]
        show (st.Gdist.addEdge min1 m _).getWeight min1 m = _
        rw [WGraph.getWeight_addEdge, if_pos rfl]
      · have hx' : x ∈ rest := by
          rcases List.mem_cons.mp hx with h | h
          · exact absurd h.symm hxm
          · exact h
        rw [ih _ hx' (List.Nodup.of_cons hnd) ?hcomp2]
        case hcomp2 =>
          intro m' hm' hne
          exact WGraph.hasEdge_addEdge_mono _ _ _ _
            (hcomp m' (List.mem_cons_of_mem _ hm') hne)
        have h1 : (st.Gdist.addEdge min1 m
            (min ((st.Gdist.getWeight min1 m).getD 0)
                 ((st.Gdist.getWeight min2 m).getD 0))).getWeight min1 x =
            st.Gdist.getWeight min1 x := by
          rw [WGraph.getWeight_addEdge]
          rw [if_neg (fun hc => hxm (norm2_right_cancel min1 x m hc).symm)]
        have h2 : (st.Gdist.addEdge min1 m
            (min ((st.Gdist.getWeight min1 m).getD 0)
                 ((st.Gdist.getWeight min2 m).getD 0))).getWeight min2 x =
            st.Gdist.getWeight min2 x := by
          rw [WGraph.getWeight_addEdge]
          refine if_neg (fun hc => ?_)
          rcases (norm2_eq_iff min2 x min1 m).mp hc with ⟨hh, _⟩ | ⟨_, hh⟩
          · exact h12 hh.symm
          · exact hx1 hh
        show some (min (((st.Gdist.addEdge min1 m _).getWeight min1 x).getD 0)
            (((st.Gdist.addEdge min1 m _).getWeight min2 x).getD 0)) = _
        rw [h1, h2]

/-- C5: merging `min2` (drop) into `min1` (keep) on a Distance Graph where
`min1` has an edge to every neighbour of `min2` (the complete-graph
situation the source maintains): the merge succeeds, every other node `x`
with an edge of weight `w1` to the dropped minimum and `w2` to the kept one
ends with the edge `x`–`keep` of weight `min(w2, w1)`, and the dropped
node is no longer in the Distance Graph. -/
theorem mergeMinima_edge_min (st : DGState) (min1 min2 x : Nat) (w1 w2 : ℚ)
    (hx1 : x ≠ min1) (hx2 : x ≠ min2) (h12 : min1 ≠ min2)
    (hw1 : st.Gdist.getWeight min2 x = some w1)
    (hw2 : st.Gdist.getWeight min1 x = some w2)
    (hin : min2 ∈ st.Gdist.nodes)
    (hnd : (st.Gdist.neighbors min2).Nodup)
    (hcomp : ∀ m ∈ st.Gdist.neighbors min2, m ≠ min1 →
      st.Gdist.hasEdge min1 m = true) :
    (mergeMinima st min1 min2).2 = true ∧
    (mergeMinima st min1 min2).1.Gdist.getWeight min1 x = some (min w2 w1) ∧
    min2 ∉ (mergeMinima st min1 min2).1.Gdist.nodes := by
  have hxnb : x ∈ st.Gdist.neighbors min2 :=
    mem_neighbors_of_getWeight st.Gdist min2 x w1 hw1
  have hok := mergeLoop_ok min1 min2 (st.Gdist.neighbors min2) st hcomp
  have hmin := mergeLoop_sets_min min1 min2 x hx1 h12 (st.Gdist.neighbors min2) st
    hxnb hnd hcomp
  rw [hw1, hw2] at hmin
  unfold mergeMinima
  rw [if_pos hin]
  cases hml : mergeLoop min1 min2 st (st.Gdist.neighbors min2) with
  | mk st1 ok =>
    rw [hml] at hok hmin
    cases ok
    · exact absurd hok Bool.false_ne_true
    · refine ⟨rfl, ?_, ?_⟩
      · show (st1.Gdist.removeNode min2).getWeight min1 x = some (min w2 w1)
        rw [WGraph.getWeight_removeNode st1.Gdist min2 min1 x h12 hx2]
        simpa using hmin
      · exact WGraph.not_mem_removeNode st1.Gdist min2

def stC5 : DGState :=
  { Gdist := { nodes := [1, 2, 3], edges := [((1, 2), 5), ((1, 3), 7), ((2, 3), 4)] },
    distance_map := [], new_distances := [], database := [],
    defer_database_update := true, ncalls := 0 }

/-- Witness for C5: merging `2` into `1` with `w(1,3) = 7` and `w(2,3) = 4`
leaves the edge `1`–`3` with weight `min(7,4) = 4` and removes node `2`. -/
theorem mergeMinima_edge_min_witness :
    (mergeMinima stC5 1 2).2 = true ∧
    (mergeMinima stC5 1 2).1.Gdist.getWeight 1 3 = some (min 7 4) ∧
    2 ∉ (mergeMinima stC5 1 2).1.Gdist.nodes :=
  mergeMinima_edge_min stC5 1 2 3 4 7 (by decide) (by decide) (by decide)
    (by decide) (by decide) (by decide) (by decide) (by decide)

/-- The value of the external distance routine (its `none`/raising case
defaulted), used to state what "the true distance" is. -/
def mdv (md : Nat → Nat → Option ℚ) (a b : Nat) : ℚ := (md a b).getD 0

/-- The distance cache is consistent with the external routine: every
stored entry holds the routine's value for its key pair. -/
def CacheOK (md : Nat → Nat → Option ℚ) (dm : KMap (Nat × Nat)) : Prop :=
  ∀ p w, (p, w) ∈ dm → md p.1 p.2 = some w

theorem some_getD_eq {o : Option ℚ} (h : o.isSome = true) : some (o.getD 0) = o := by
  cases o
  · simp at h
  · rfl

theorem getDistNoCalc_cacheOK (md : Nat → Nat → Option ℚ) (dm : KMap (Nat × Nat))
    (a b : Nat) (v : ℚ) (hsym : ∀ x y, md x y = md y x) (hcc : CacheOK md dm)
    (h : getDistNoCalc dm a b = some v) : md a b = some v := by
  unfold getDistNoCalc at h
  cases hf : findW dm (a, b) with
  | some w =>
    rw [hf] at h
    injection h with h
    subst h
    exact hcc (a, b) w (findW_mem hf)
  | none =>
    rw [hf] at h
    have h2 := hcc (b, a) v (findW_mem h)
    rw [hsym a b]
    exact h2

theorem setDist_distance_map (st : DGState) (a b : Nat) (d : ℚ) :
    (setDist st a b d).distance_map = setW st.distance_map (a, b) d := by
  unfold setDist
  cases hdef : st.defer_database_update <;> simp [hdef]

theorem getDist_spec (md : Nat → Nat → Option ℚ) (st : DGState) (a b : Nat)
    (htot : ∀ x y, (md x y).isSome = true)
    (hsym : ∀ x y, md x y = md y x)
    (hcc : CacheOK md st.distance_map) :
    (getDist md st a b).2 = some (mdv md a b) ∧
    CacheOK md (getDist md st a b).1.distance_map := by
  unfold getDist
  cases hf : getDistNoCalc st.distance_map a b with
  | some v =>
    have hv := getDistNoCalc_cacheOK md st.distance_map a b v hsym hcc hf
    constructor
    · show some v = some (mdv md a b)
      rw [mdv, hv]
      rfl
    · exact hcc
  | none =>
    cases hmd : md a b with
    | none =>
      have h2 := htot a b
      rw [hmd] at h2
      simp at h2
    | some d =>
      constructor
      · show some d = some (mdv md a b)
        rw [mdv, hmd]
        rfl
      · show CacheOK md (setDist { st with ncalls := st.ncalls + 1 } a b d).distance_map
        intro p w hp
        rw [setDist_distance_map] at hp
        rcases mem_setW hp with h | h
        · have hp1 : p = (a, b) := congrArg Prod.fst h
          have hw1 : w = d := congrArg Prod.snd h
          rw [hp1, hw1]
          exact hmd
        · exact hcc p w h

/-- The weight `checkGraph` leaves on an edge whose pre-scan weight was
`findW w0 k`, as a function of connectivity and the `1e-10` threshold
(spec §4.4): connected edges end approximately zero — exactly `0` unless
they already were below the threshold, in which case they are untouched —
and disconnected approximately-zero edges are reset to the true distance
squared. -/
def cgTarget (md : Nat → Nat → Option ℚ) (cg : ConnGraph) (w0 : KMap (Nat × Nat))
    (k : Nat × Nat) : ℚ :=
  if areConnected cg k.1 k.2 then
    (if (findW w0 k).getD 0 < eps10 then (findW w0 k).getD 0 else 0)
  else
    (if (findW w0 k).getD 0 < eps10 then distToWeight (mdv md k.1 k.2)
     else (findW w0 k).getD 0)

theorem cgLoop_repairs (md : Nat → Nat → Option ℚ) (cg : ConnGraph)
    (w0 : KMap (Nat × Nat))
    (htot : ∀ x y, (md x y).isSome = true)
    (hsym : ∀ x y, md x y = md y x) :
    ∀ (l : List (Nat × Nat)) (st : DGState) (allok : Bool) (warns : List (Nat × Nat)),
      CacheOK md st.distance_map →
      l.Nodup →
      (∀ k ∈ l, norm2 k.1 k.2 = k ∧ (findW w0 k).isSome = true ∧
        findW st.Gdist.edges k = findW w0 k) →
      (cgLoop md cg w0 st allok warns l).ok = true ∧
      (∀ k, k ∉ l →
        findW (cgLoop md cg w0 st allok warns l).state.Gdist.edges k =
          findW st.Gdist.edges k) ∧
      (∀ k ∈ l,
        findW (cgLoop md cg w0 st allok warns l).state.Gdist.edges k =
          some (cgTarget md cg w0 k)) := by
  intro l
  induction l with
  | nil =>
    intro st allok warns hcc hnd hinv
    exact ⟨rfl, fun k _ => rfl, fun k hk => absurd hk (List.not_mem_nil k)⟩
  | cons uv rest ih =>
    obtain ⟨u, v⟩ := uv
    intro st allok warns hcc hnd hinv
    obtain ⟨hnorm, hsome, hfind⟩ := hinv (u, v) (List.mem_cons_self _ _)
    have hnotrest : (u, v) ∉ rest := (List.nodup_cons.mp hnd).1
    have hndrest : rest.Nodup := (List.nodup_cons.mp hnd).2
    have hclose : ∀ (st' : DGState) (allok' : Bool) (warns' : List (Nat × Nat)),
        CacheOK md st'.distance_map →
        findW st'.Gdist.edges (u, v) = some (cgTarget md cg w0 (u, v)) →
        (∀ k, k ≠ (u, v) → findW st'.Gdist.edges k = findW st.Gdist.edges k) →
        (cgLoop md cg w0 st' allok' warns' rest).ok = true ∧
        (∀ k, k ∉ (u, v) :: rest →
          findW (cgLoop md cg w0 st' allok' warns' rest).state.Gdist.edges k =
            findW st.Gdist.edges k) ∧
        (∀ k ∈ (u, v) :: rest,
          findW (cgLoop md cg w0 st' allok' warns' rest).state.Gdist.edges k =
            some (cgTarget md cg w0 k)) := by
      intro st' allok' warns' hcc' huv hframe
      have hinv' : ∀ k ∈ rest, norm2 k.1 k.2 = k ∧ (findW w0 k).isSome = true ∧
          findW st'.Gdist.edges k = findW w0 k := by
        intro k hk
        obtain ⟨h1, h2, h3⟩ := hinv k (List.mem_cons_of_mem _ hk)
        refine ⟨h1, h2, ?_⟩
        rw [hframe k (fun he => hnotrest (he ▸ hk)), h3]
      obtain ⟨hok, hfr, htg⟩ := ih st' allok' warns' hcc' hndrest hinv'
      refine ⟨hok, ?_, ?_⟩
      · intro k hk
        have hk1 : k ≠ (u, v) := fun he => hk (he ▸ List.mem_cons_self _ _)
        have hk2 : k ∉ rest := fun he => hk (List.mem_cons_of_mem _ he)
        rw [hfr k hk2, hframe k hk1]
      · intro k hk
        rcases List.mem_cons.mp hk with rfl | hk'
        · rw [hfr (u, v) hnotrest, huv]
        · exact htg k hk'
    unfold cgLoop
    by_cases hconn : areConnected cg u v
    · rw [if_pos hconn]
      by_cases hzw : (findW w0 (u, v)).getD 0 < eps10
      · rw [if_pos hzw]
        have htg : findW st.Gdist.edges (u, v) = some (cgTarget md cg w0 (u, v)) := by
          rw [hfind]
          have ht : cgTarget md cg w0 (u, v) = (findW w0 (u, v)).getD 0 := by
            simp only [cgTarget]
            rw [if_pos hconn, if_pos hzw]
          rw [ht]
          exact (some_getD_eq hsome).symm
        exact hclose st allok warns hcc htg (fun k _ => rfl)
      · rw [if_neg hzw]
        have ht : cgTarget md cg w0 (u, v) = 0 := by
          simp only [cgTarget]
          rw [if_pos hconn, if_neg hzw]
        by_cases hsp : (shortestPathWeight st.Gdist u v).getD 0 > eps5
        · rw [if_pos hsp]
          cases hg : getDist md st u v with
          | mk st1 od =>
            have hspec := getDist_spec md st u v htot hsym hcc
            rw [hg] at hspec
            have hod : od = some (mdv md u v) := hspec.1
            subst hod
            have hG : st1.Gdist = st.Gdist := by
              have h2 := getDist_Gdist md st u v
              rw [hg] at h2
              exact h2
            apply hclose
            · exact hspec.2
            · show findW (setW st1.Gdist.edges (norm2 u v) 0) (u, v) =
                some (cgTarget md cg w0 (u, v))
              rw [findW_setW, hnorm, if_pos rfl, ht]
            · intro k hk
              show findW (setW st1.Gdist.edges (norm2 u v) 0) k =
                findW st.Gdist.edges k
              rw [findW_setW, hnorm, if_neg hk, hG]
        · rw [if_neg hsp]
          apply hclose
          · exact hcc
          · show findW (setW st.Gdist.edges (norm2 u v) 0) (u, v) =
              some (cgTarget md cg w0 (u, v))
            rw [findW_setW, hnorm, if_pos rfl, ht]
          · intro k hk
            show findW (setW st.Gdist.edges (norm2 u v) 0) k =
              findW st.Gdist.edges k
            rw [findW_setW, hnorm, if_neg hk]
    · rw [if_neg hconn]
      by_cases hzw : (findW w0 (u, v)).getD 0 < eps10
      · rw [if_pos hzw]
        have ht : cgTarget md cg w0 (u, v) = distToWeight (mdv md u v) := by
          simp only [cgTarget]
          rw [if_neg hconn, if_pos hzw]
        cases hg : getDist md st u v with
        | mk st1 od =>
          have hspec := getDist_spec md st u v htot hsym hcc
          rw [hg] at hspec
          have hod : od = some (mdv md u v) := hspec.1
          subst hod
          have hG : st1.Gdist = st.Gdist := by
            have h2 := getDist_Gdist md st u v
            rw [hg] at h2
            exact h2
          apply hclose
          · exact hspec.2
          · show findW (setW st1.Gdist.edges (norm2 u v) (distToWeight (mdv md u v))) (u, v) =
              some (cgTarget md cg w0 (u, v))
            rw [findW_setW, hnorm, if_pos rfl, ht]
          · intro k hk
            show findW (setW st1.Gdist.edges (norm2 u v) (distToWeight (mdv md u v))) k =
              findW st.Gdist.edges k
            rw [findW_setW, hnorm, if_neg hk, hG]
      · rw [if_neg hzw]
        have htg : findW st.Gdist.edges (u, v) = some (cgTarget md cg w0 (u, v)) := by
          rw [hfind]
          have ht : cgTarget md cg w0 (u, v) = (findW w0 (u, v)).getD 0 := by
            simp only [cgTarget]
            rw [if_neg hconn, if_neg hzw]
          rw [ht]
          exact (some_getD_eq hsome).symm
        exact hclose st allok warns hcc htg (fun k _ => rfl)

/-- C3 (amended): when `checkGraph` completes, every pre-scan edge `(u,v)`
ends with the weight `cgTarget` prescribes: endpoints connected in the
Connectivity Graph leave the edge approximately zero — exactly `0` when the
pass rewrote it, or its old weight when that was already below `1e-10`
(the pass does not touch those, so an old weight strictly between `0` and
`1e-10` survives, which is why the claim's "exactly 0" fails) — and
endpoints not connected with an approximately-zero weight get the true
distance squared.  In particular every connected edge ends below `1e-10`,
the approximate form of the §3 invariant. -/
theorem checkGraph_repairs_edges (md : Nat → Nat → Option ℚ) (cg : ConnGraph)
    (st : DGState)
    (htot : ∀ x y, (md x y).isSome = true)
    (hsym : ∀ x y, md x y = md y x)
    (hcc : CacheOK md st.distance_map)
    (hkeys : ∀ e ∈ st.Gdist.edges, norm2 e.1.1 e.1.2 = e.1)
    (hnd : (st.Gdist.edges.map Prod.fst).Nodup) :
    (checkGraph md cg st).ok = true ∧
    ∀ e ∈ st.Gdist.edges,
      findW (checkGraph md cg st).state.Gdist.edges e.1 =
        some (cgTarget md cg st.Gdist.edges e.1) ∧
      (areConnected cg e.1.1 e.1.2 = true →
        cgTarget md cg st.Gdist.edges e.1 < eps10) := by
  have hinv : ∀ k ∈ st.Gdist.edges.map Prod.fst,
      norm2 k.1 k.2 = k ∧ (findW st.Gdist.edges k).isSome = true ∧
      findW st.Gdist.edges k = findW st.Gdist.edges k := by
    intro k hk
    rcases List.mem_map.mp hk with ⟨e, he, hek⟩
    refine ⟨?_, findW_isSome_of_mem_keys hk, rfl⟩
    rw [← hek]
    exact hkeys e he
  obtain ⟨hok, _, htg⟩ := cgLoop_repairs md cg st.Gdist.edges htot hsym
    (st.Gdist.edges.map Prod.fst) st true [] hcc hnd hinv
  refine ⟨hok, ?_⟩
  intro e he
  refine ⟨htg e.1 (List.mem_map.mpr ⟨e, he, rfl⟩), ?_⟩
  intro hconn
  simp only [cgTarget]
  rw [if_pos hconn]
  by_cases hzw : (findW st.Gdist.edges e.1).getD 0 < eps10
  · rw [if_pos hzw]
    exact hzw
  · rw [if_neg hzw]
    show (0 : ℚ) < eps10
    decide

def mdC3 : Nat → Nat → Option ℚ := fun _ _ => some 1

def cgC3 : ConnGraph := [[0, 1]]

def stC3w : DGState :=
  { Gdist := { nodes := [0, 1], edges := [((0, 1), 5)] },
    distance_map := [], new_distances := [], database := [],
    defer_database_update := true, ncalls := 0 }

/-- Witness for the amended C3: a connected edge of weight `5` is repaired
to the `cgTarget` weight (here `0`) and the scan completes. -/
theorem checkGraph_repairs_edges_witness :
    (checkGraph mdC3 cgC3 stC3w).ok = true ∧
    findW (checkGraph mdC3 cgC3 stC3w).state.Gdist.edges (0, 1) =
      some (cgTarget mdC3 cgC3 stC3w.Gdist.edges (0, 1)) :=
  ⟨(checkGraph_repairs_edges mdC3 cgC3 stC3w (fun _ _ => rfl) (fun _ _ => rfl)
      (fun p w hp => absurd hp (List.not_mem_nil _)) (by decide) (by decide)).1,
   ((checkGraph_repairs_edges mdC3 cgC3 stC3w (fun _ _ => rfl) (fun _ _ => rfl)
      (fun p w hp => absurd hp (List.not_mem_nil _)) (by decide) (by decide)).2
     ((0, 1), 5) (by decide)).1⟩

def mdC3x : Nat → Nat → Option ℚ := fun _ _ => none

def cgC3x : ConnGraph := [[0, 1]]

def stC3x : DGState :=
  { Gdist := { nodes := [0, 1], edges := [((0, 1), mkRat 1 (10 ^ 11))] },
    distance_map := [], new_distances := [], database := [],
    defer_database_update := true, ncalls := 0 }

/-- Counterexample to C3 as stated: minima `0` and `1` are connected in
the Connectivity Graph and their edge carries the tiny weight `1e-11`.
Because `1e-11 < 1e-10` counts as `zero_weight`, `checkGraph` completes
without touching the edge, whose weight afterwards is still `1e-11` — not
`0` as the claim requires for connected endpoints, so the lowest-weight
path between them is `1e-11`, approximately but not exactly zero. -/
theorem checkGraph_connected_edge_not_exact_zero :
    areConnected cgC3x 0 1 = true ∧
    (checkGraph mdC3x cgC3x stC3x).ok = true ∧
    (checkGraph mdC3x cgC3x stC3x).state.Gdist.getWeight 0 1 =
      some (mkRat 1 (10 ^ 11)) ∧
    mkRat 1 (10 ^ 11) ≠ 0 := by
  decide
